import Mathlib

/-!
Verification development for the `image_proc` repository
(`src/image_proc/src/main.rs`): a lens-calibration pipeline built on OpenCV
and egui.  The definitions below are a shallow embedding of the repository's
own code; external collaborators (OpenCV matrix routines, the bincode wire
format, the `splines` crate sampler, camera devices, the filesystem) appear
either as explicit definitions of their documented behaviour or as oracle
parameters constrained by the contract the surrounding code relies on.
`Option`/`Except` results model fallible Rust code; `none` models a panic
(a failed `unwrap` or a slice-length mismatch) where noted.
-/

namespace ImageProc

/-- An OpenCV matrix as the source observes it: size, element-type tag and raw
bytes.  Models `opencv::core::Mat` through the accessors the source calls
(`size()`, `typ()`, `data_bytes()`, `cols()`, `rows()`). -/
structure Mat where
  width : Int
  height : Int
  typ : Int
  data : List Nat
deriving Repr, DecidableEq

/-- The `opencv::core::CV_64FC1` element-type tag (64-bit float, 1 channel). -/
def CV_64FC1 : Int := 6

/-- The `opencv::core::CV_8UC3` element-type tag (8-bit unsigned, 3 channels). -/
def CV_8UC3 : Int := 16

/-- `SaveableOpencvMat` (main.rs lines 18-24): the serde-serializable snapshot
of a matrix — width, height, element-type tag and the raw data bytes. -/
structure SaveableOpencvMat where
  width : Int
  height : Int
  typ : Int
  data : List Nat
deriving Repr, DecidableEq

/-- `impl From<opencv::core::Mat> for SaveableOpencvMat` (main.rs lines 26-37):
copies size, type tag and data bytes. -/
def matToSaveable (m : Mat) : SaveableOpencvMat :=
  { width := m.width, height := m.height, typ := m.typ, data := m.data }

/-- `impl Into<opencv::core::Mat> for SaveableOpencvMat` (main.rs lines 45-63):
allocates a fresh `CV_64FC1` matrix of the stored width and height and copies
the raw bytes into it with `copy_from_slice`, which panics (`none`) unless the
stored byte count equals the new matrix's buffer size `width * height * 8`.
The stored `typ` field is never consulted. -/
def saveableToMat (s : SaveableOpencvMat) : Option Mat :=
  if s.data.length = s.width.toNat * s.height.toNat * 8 then
    some { width := s.width, height := s.height, typ := CV_64FC1, data := s.data }
  else none

/-- A pixel as `egui::Color32` is consumed here: red, green, blue bytes. -/
structure Color32 where
  r : Nat
  g : Nat
  b : Nat
deriving Repr, DecidableEq

/-- `eframe::egui::ColorImage` as the source uses it: dimensions plus the
pixel list (whose length is `width * height` for images egui constructs). -/
structure ColorImage where
  width : Nat
  height : Nat
  pixels : List Color32
deriving Repr, DecidableEq

/-- Regroup a flat RGB byte list into pixels, three bytes at a time. -/
def chunksOf3 : List Nat → List Color32
  | r :: g :: b :: rest => ⟨r, g, b⟩ :: chunksOf3 rest
  | _ => []

/-- `eframe::egui::ColorImage::from_rgb(dims, data)`: asserts (panics, `none`)
unless `data.len() = w * h * 3`, then groups the bytes into pixels. -/
def colorImageFromRgb (w h : Nat) (data : List Nat) : Option ColorImage :=
  if data.length = w * h * 3 then some ⟨w, h, chunksOf3 data⟩ else none

/-- The `rdata` buffer of `apply_calibration` (main.rs lines 91-96): pixels
flattened to bytes in b, g, r order. -/
def bgrBytes (img : ColorImage) : List Nat :=
  img.pixels.flatMap fun p => [p.b, p.g, p.r]

/-- `CalibrationDataTrait::apply_calibration` for `[SaveableOpencvMat; 2]`
(main.rs lines 76-112).  The external `opencv::calib3d::undistort` collaborator
is the `undistort` parameter.  The source builds a `CV_8UC3` matrix of the
image's dimensions, fills it with the b,g,r bytes (`copy_from_slice` panics,
`none`, on a length mismatch), converts both saved matrices, undistorts, and
rebuilds a `ColorImage` from the output's cols, rows and data bytes. -/
def apply_calibration (undistort : Mat → Mat → Mat → Mat)
    (cal : SaveableOpencvMat × SaveableOpencvMat) (img : ColorImage) :
    Option ColorImage :=
  if (bgrBytes img).length = img.width * img.height * 3 then
    let orig : Mat := ⟨(img.width : Int), (img.height : Int), CV_8UC3, bgrBytes img⟩
    match saveableToMat cal.1, saveableToMat cal.2 with
    | some cm, some dc =>
        let oimg := undistort orig cm dc
        colorImageFromRgb oimg.width.toNat oimg.height.toNat oimg.data
    | _, _ => none
  else none

theorem flatMap_bgr_length (l : List Color32) :
    (l.flatMap fun p => [p.b, p.g, p.r]).length = 3 * l.length := by
  induction l with
  | nil => rfl
  | cons p rest ih =>
      simp only [List.flatMap_cons, List.length_append, ih, List.length_cons,
        List.length_nil]
      ring

theorem bgrBytes_length (img : ColorImage) :
    (bgrBytes img).length = 3 * img.pixels.length :=
  flatMap_bgr_length img.pixels

/-- C1: for every frame `F` and every calibration pair (the distortion-model
case of `CalibrationVariant`), `apply_calibration` returns a frame whose width
and height equal `F`'s exactly.  `hund` is the spec's black-box contract on the
external undistortion transform: output dimensions and buffer size equal the
input's.  `hpix` is egui's `ColorImage` pixel-count invariant, and `hcm`/`hdc`
state that the two stored matrices convert back successfully. -/
theorem apply_calibration_preserves_dims (undistort : Mat → Mat → Mat → Mat)
    (hund : ∀ src cm dc, (undistort src cm dc).width = src.width ∧
      (undistort src cm dc).height = src.height ∧
      (undistort src cm dc).data.length = src.data.length)
    (cal : SaveableOpencvMat × SaveableOpencvMat) (img : ColorImage)
    (hpix : img.pixels.length = img.width * img.height)
    (cm dc : Mat) (hcm : saveableToMat cal.1 = some cm)
    (hdc : saveableToMat cal.2 = some dc) :
    (apply_calibration undistort cal img).map (fun o => (o.width, o.height)) =
      some (img.width, img.height) := by
  have hlen : (bgrBytes img).length = img.width * img.height * 3 := by
    rw [bgrBytes_length, hpix]; ring
  unfold apply_calibration
  rw [if_pos hlen, hcm, hdc]
  obtain ⟨hw, hh, hd⟩ :=
    hund ⟨(img.width : Int), (img.height : Int), CV_8UC3, bgrBytes img⟩ cm dc
  simp only [colorImageFromRgb, hw, hh, hd, hlen, Int.toNat_natCast]
  simp

/-- Witness for `apply_calibration_preserves_dims`: the identity undistortion,
a pair of 1×1 saved matrices with 8 data bytes each, and a 1×1 frame. -/
theorem apply_calibration_preserves_dims_witness :
    (apply_calibration (fun src _ _ => src)
      (⟨1, 1, CV_64FC1, List.replicate 8 0⟩, ⟨1, 1, CV_64FC1, List.replicate 8 0⟩)
      ⟨1, 1, [⟨0, 0, 0⟩]⟩).map (fun o => (o.width, o.height)) = some (1, 1) :=
  apply_calibration_preserves_dims (fun src _ _ => src)
    (fun _ _ _ => ⟨rfl, rfl, rfl⟩)
    (⟨1, 1, CV_64FC1, List.replicate 8 0⟩, ⟨1, 1, CV_64FC1, List.replicate 8 0⟩)
    ⟨1, 1, [⟨0, 0, 0⟩]⟩ (by decide)
    ⟨1, 1, CV_64FC1, List.replicate 8 0⟩ ⟨1, 1, CV_64FC1, List.replicate 8 0⟩
    (by decide) (by decide)

/-- C9: restoring a persisted matrix ignores the stored element-type field —
the conversion back to a matrix always constructs a 64-bit-float
single-channel (`CV_64FC1`) matrix, so only width, height and the raw data
bytes are restored; replacing the saved `typ` by any other value `t` yields
the very same matrix. -/
theorem saveableToMat_ignores_saved_typ (s : SaveableOpencvMat) (m : Mat)
    (h : saveableToMat s = some m) (t : Int) :
    m.typ = CV_64FC1 ∧ m.width = s.width ∧ m.height = s.height ∧
      m.data = s.data ∧
      saveableToMat { s with typ := t } = some m := by
  unfold saveableToMat at h ⊢
  by_cases hc : s.data.length = s.width.toNat * s.height.toNat * 8
  · rw [if_pos hc] at h
    cases h
    exact ⟨rfl, rfl, rfl, rfl, by simp [hc]⟩
  · rw [if_neg hc] at h
    exact absurd h (by simp)

/-- Witness for `saveableToMat_ignores_saved_typ`: a 1×1 saved matrix whose
stored `typ` is 0 still restores to a `CV_64FC1` matrix, and so does the same
snapshot with its `typ` replaced by 5. -/
theorem saveableToMat_ignores_saved_typ_witness :
    (⟨1, 1, CV_64FC1, List.replicate 8 7⟩ : Mat).typ = CV_64FC1 ∧
      (⟨1, 1, CV_64FC1, List.replicate 8 7⟩ : Mat).width = 1 ∧
      (⟨1, 1, CV_64FC1, List.replicate 8 7⟩ : Mat).height = 1 ∧
      (⟨1, 1, CV_64FC1, List.replicate 8 7⟩ : Mat).data = List.replicate 8 7 ∧
      saveableToMat ⟨1, 1, 5, List.replicate 8 7⟩ =
        some ⟨1, 1, CV_64FC1, List.replicate 8 7⟩ :=
  saveableToMat_ignores_saved_typ ⟨1, 1, 0, List.replicate 8 7⟩
    ⟨1, 1, CV_64FC1, List.replicate 8 7⟩ (by decide) 5

/-- `CalibrationData` (main.rs lines 70-74): the tagged calibration union,
currently the single variant `OpenCvCharuco([SaveableOpencvMat; 2])` holding
the camera matrix and the distortion-coefficient vector. -/
inductive CalibrationData where
  | OpenCvCharuco : SaveableOpencvMat → SaveableOpencvMat → CalibrationData
deriving Repr, DecidableEq

/-! ### The bincode "standard" wire format

The source persists `CalibrationData` with
`bincode::serde::encode_to_vec(&cd, bincode::config::standard())`.  The
serialization collaborator is external, so its documented wire format is
modelled here: little-endian bytes, variable-length integer encoding with
markers 251–254, zigzag for signed integers, a u64 length prefix for byte
vectors, enum variant index as a u32 varint, fixed-size arrays element by
element with no length prefix. -/

/-- `k`-byte little-endian rendering of `n`. -/
def toLE : Nat → Nat → List Nat
  | 0, _ => []
  | k + 1, n => n % 256 :: toLE k (n / 256)

/-- Read `k` little-endian bytes back into a number, returning the rest. -/
def readLE : Nat → List Nat → Option (Nat × List Nat)
  | 0, l => some (0, l)
  | _ + 1, [] => none
  | k + 1, b :: l => (readLE k l).map fun p => (b + 256 * p.1, p.2)

/-- Bincode-standard varint encoding of an unsigned integer. -/
def encodeVaruint (n : Nat) : List Nat :=
  if n < 251 then [n]
  else if n < 2 ^ 16 then 251 :: toLE 2 n
  else if n < 2 ^ 32 then 252 :: toLE 4 n
  else if n < 2 ^ 64 then 253 :: toLE 8 n
  else 254 :: toLE 16 n

/-- Bincode-standard varint decoding. -/
def decodeVaruint : List Nat → Option (Nat × List Nat)
  | [] => none
  | b :: l =>
    if b < 251 then some (b, l)
    else if b = 251 then readLE 2 l
    else if b = 252 then readLE 4 l
    else if b = 253 then readLE 8 l
    else if b = 254 then readLE 16 l
    else none

/-- Zigzag mapping of a signed integer, applied by bincode before varint. -/
def zigzag (i : Int) : Nat :=
  if 0 ≤ i then 2 * i.toNat else 2 * (-i).toNat - 1

/-- Inverse of the zigzag mapping. -/
def unzigzag (n : Nat) : Int :=
  if n % 2 = 0 then ((n / 2 : Nat) : Int) else -(((n / 2 : Nat) : Int) + 1)

/-- Bincode-standard encoding of an `i32` field. -/
def encode_i32 (i : Int) : List Nat := encodeVaruint (zigzag i)

/-- Bincode-standard decoding of an `i32` field. -/
def decode_i32 (l : List Nat) : Option (Int × List Nat) :=
  (decodeVaruint l).map fun p => (unzigzag p.1, p.2)

/-- Bincode-standard encoding of a `Vec<u8>`: u64-varint length, raw bytes. -/
def encodeByteVec (data : List Nat) : List Nat :=
  encodeVaruint data.length ++ data

/-- Bincode-standard decoding of a `Vec<u8>`. -/
def decodeByteVec (l : List Nat) : Option (List Nat × List Nat) := do
  let (n, rest) ← decodeVaruint l
  if n ≤ rest.length then some (rest.take n, rest.drop n) else none

/-- Bincode-standard encoding of one `SaveableOpencvMat`: its four fields in
declaration order. -/
def encodeSaveable (s : SaveableOpencvMat) : List Nat :=
  encode_i32 s.width ++ encode_i32 s.height ++ encode_i32 s.typ ++
    encodeByteVec s.data

/-- Bincode-standard decoding of one `SaveableOpencvMat`. -/
def decodeSaveable (l : List Nat) : Option (SaveableOpencvMat × List Nat) := do
  let (w, l) ← decode_i32 l
  let (h, l) ← decode_i32 l
  let (t, l) ← decode_i32 l
  let (d, l) ← decodeByteVec l
  some (⟨w, h, t, d⟩, l)

/-- Bincode-standard serialization of `CalibrationData`: the variant index as
a u32 varint, then the two array elements in order. -/
def encodeCalibrationData : CalibrationData → List Nat
  | .OpenCvCharuco cm dc => encodeVaruint 0 ++ encodeSaveable cm ++ encodeSaveable dc

/-- Bincode-standard deserialization of `CalibrationData`; an unknown variant
tag is a decode error (`none`). -/
def decodeCalibrationData (l : List Nat) : Option (CalibrationData × List Nat) := do
  let (tag, l) ← decodeVaruint l
  if tag = 0 then
    let (cm, l) ← decodeSaveable l
    let (dc, l) ← decodeSaveable l
    some (.OpenCvCharuco cm dc, l)
  else none

/-- The value range of a Rust `i32`. -/
def i32Range (i : Int) : Prop := -(2 ^ 31) ≤ i ∧ i < 2 ^ 31

/-- A `SaveableOpencvMat` representable in Rust: `i32` fields in range and a
`Vec` length below `2^64`. -/
def SaveableOpencvMat.wf (s : SaveableOpencvMat) : Prop :=
  i32Range s.width ∧ i32Range s.height ∧ i32Range s.typ ∧
    s.data.length < 2 ^ 64

theorem readLE_toLE (k : Nat) :
    ∀ (n : Nat) (rest : List Nat), n < 256 ^ k →
      readLE k (toLE k n ++ rest) = some (n, rest) := by
  induction k with
  | zero =>
      intro n rest hn
      interval_cases n
      rfl
  | succ k ih =>
      intro n rest hn
      have hdiv : n / 256 < 256 ^ k := by
        rw [Nat.div_lt_iff_lt_mul (by norm_num)]
        calc n < 256 ^ (k + 1) := hn
        _ = 256 ^ k * 256 := by ring
      have hih := ih (n / 256) rest hdiv
      simp only [toLE, List.cons_append, readLE, List.append_eq]
      rw [hih]
      simp [Nat.mod_add_div]

theorem decodeVaruint_encodeVaruint (n : Nat) (hn : n < 2 ^ 128)
    (rest : List Nat) :
    decodeVaruint (encodeVaruint n ++ rest) = some (n, rest) := by
  unfold encodeVaruint
  by_cases h1 : n < 251
  · simp [h1, decodeVaruint]
  · by_cases h2 : n < 2 ^ 16
    · rw [if_neg h1, if_pos h2, List.cons_append]
      simp only [decodeVaruint]
      norm_num
      exact readLE_toLE 2 n rest (by norm_num at h2 ⊢; omega)
    · by_cases h3 : n < 2 ^ 32
      · rw [if_neg h1, if_neg h2, if_pos h3, List.cons_append]
        simp only [decodeVaruint]
        norm_num
        exact readLE_toLE 4 n rest (by norm_num at h3 ⊢; omega)
      · by_cases h4 : n < 2 ^ 64
        · rw [if_neg h1, if_neg h2, if_neg h3, if_pos h4, List.cons_append]
          simp only [decodeVaruint]
          norm_num
          exact readLE_toLE 8 n rest (by norm_num at h4 ⊢; omega)
        · rw [if_neg h1, if_neg h2, if_neg h3, if_neg h4, List.cons_append]
          simp only [decodeVaruint]
          norm_num
          exact readLE_toLE 16 n rest (by norm_num at hn ⊢; omega)

theorem unzigzag_zigzag (i : Int) : unzigzag (zigzag i) = i := by
  unfold zigzag unzigzag
  by_cases h : 0 ≤ i
  · simp only [h, if_pos]
    have : 2 * i.toNat % 2 = 0 := by omega
    rw [if_pos this]
    omega
  · rw [if_neg h]
    have hm : 1 ≤ (-i).toNat := by omega
    have hodd : (2 * (-i).toNat - 1) % 2 = 1 := by omega
    rw [if_neg (by omega)]
    have : (2 * (-i).toNat - 1) / 2 = (-i).toNat - 1 := by omega
    rw [this]
    omega

theorem zigzag_lt (i : Int) (hi : i32Range i) : zigzag i < 2 ^ 128 := by
  obtain ⟨hlo, hhi⟩ := hi
  unfold zigzag
  by_cases h : 0 ≤ i
  · rw [if_pos h]
    norm_num at hhi ⊢
    omega
  · rw [if_neg h]
    norm_num at hlo ⊢
    omega

theorem decode_i32_encode_i32 (i : Int) (hi : i32Range i) (rest : List Nat) :
    decode_i32 (encode_i32 i ++ rest) = some (i, rest) := by
  unfold encode_i32 decode_i32
  rw [decodeVaruint_encodeVaruint (zigzag i) (zigzag_lt i hi) rest]
  simp [unzigzag_zigzag]

theorem decodeByteVec_encodeByteVec (data : List Nat)
    (hd : data.length < 2 ^ 64) (rest : List Nat) :
    decodeByteVec (encodeByteVec data ++ rest) = some (data, rest) := by
  unfold encodeByteVec decodeByteVec
  rw [List.append_assoc,
    decodeVaruint_encodeVaruint data.length (by norm_num at hd ⊢; omega) _]
  simp only [Option.bind_eq_bind, Option.some_bind]
  rw [if_pos (by simp)]
  simp [List.take_left, List.drop_left]

theorem decodeSaveable_encodeSaveable (s : SaveableOpencvMat)
    (hs : s.wf) (rest : List Nat) :
    decodeSaveable (encodeSaveable s ++ rest) = some (s, rest) := by
  obtain ⟨hw, hh, ht, hd⟩ := hs
  unfold encodeSaveable decodeSaveable
  simp only [List.append_assoc]
  rw [decode_i32_encode_i32 s.width hw]
  simp only [Option.bind_eq_bind, Option.some_bind]
  rw [decode_i32_encode_i32 s.height hh]
  simp only [Option.some_bind]
  rw [decode_i32_encode_i32 s.typ ht]
  simp only [Option.some_bind]
  rw [decodeByteVec_encodeByteVec s.data hd]
  simp

/-- C2: serializing and then deserializing a `CalibrationData` value (the
camera matrix plus distortion-coefficient pair) through the bincode-standard
wire format returns exactly the original: every integer field (width, height,
type tag) and every raw data byte — hence in particular the floating-point
matrix entries, stored as raw bytes — round-trip bit for bit, with no bytes
left over. -/
theorem calibrationData_roundtrip (cm dc : SaveableOpencvMat)
    (hcm : cm.wf) (hdc : dc.wf) :
    decodeCalibrationData
        (encodeCalibrationData (.OpenCvCharuco cm dc)) =
      some (.OpenCvCharuco cm dc, []) := by
  have htag := decodeVaruint_encodeVaruint 0 (by norm_num)
    (encodeSaveable cm ++ encodeSaveable dc)
  have hcm2 := decodeSaveable_encodeSaveable cm hcm (encodeSaveable dc)
  have hdc2 := decodeSaveable_encodeSaveable dc hdc []
  simp only [encodeCalibrationData, decodeCalibrationData, List.append_assoc,
    htag]
  rw [List.append_nil] at hdc2
  simp [hcm2, hdc2]

/-- Witness for `calibrationData_roundtrip`: a 3×3 camera matrix and a 5×1
distortion vector, 8 data bytes per double entry. -/
theorem calibrationData_roundtrip_witness :
    decodeCalibrationData
        (encodeCalibrationData
          (.OpenCvCharuco ⟨3, 3, CV_64FC1, List.replicate 72 1⟩
            ⟨5, 1, CV_64FC1, List.replicate 40 2⟩)) =
      some (.OpenCvCharuco ⟨3, 3, CV_64FC1, List.replicate 72 1⟩
        ⟨5, 1, CV_64FC1, List.replicate 40 2⟩, []) :=
  calibrationData_roundtrip ⟨3, 3, CV_64FC1, List.replicate 72 1⟩
    ⟨5, 1, CV_64FC1, List.replicate 40 2⟩
    ⟨by constructor <;> decide, by constructor <;> decide,
      by constructor <;> decide, by decide⟩
    ⟨by constructor <;> decide, by constructor <;> decide,
      by constructor <;> decide, by decide⟩

/-! ### `MainData::calibrate_camera` (main.rs lines 316-427)

The external OpenCV collaborators are oracle parameters: `detect` summarises,
per accumulated image, what `detect_markers_def` plus
`interpolate_corners_charuco_def` produce, and `solver` gives the two
matrices `calibrate_camera_charuco` leaves in its out-parameters (the source
ignores the solver's own `Result`), as a function of the flattened
correspondences and of the image size taken from the first accumulated
image.  The accumulated images are `Mat` values; the corner-point type is an
opaque type parameter. -/

/-- Per-image outcome of the detection/interpolation layer inside
`calibrate_camera`.  `detectFail`: `detect_markers_def` returned `Err`, so the
`if a.is_ok()` guard skips the frame.  `interpFail`:
`interpolate_corners_charuco_def` returned `Err`, which the `?` operator turns
into an early return.  `found cs ids`: interpolation succeeded and the frame
contributes the first-column corner rows `cs` and id rows `ids`. -/
inductive DetectOutcome (P : Type) where
  | detectFail
  | interpFail
  | found (corners : List P) (ids : List Int)
deriving DecidableEq

/-- Reasons `calibrate_camera` returns `Err(())`, tagged by which early return
fired (the Rust error type `()` itself does not distinguish them). -/
inductive CalibError where
  | dictionaryUnavailable
  | insufficientObservations
  | interpolationFailed
deriving Repr, DecidableEq

/-- Outcome of one `calibrate_camera` call; `panicked` models the Rust panic
raised by `File::create("./test.bin").unwrap()` / `write_all(..).unwrap()`. -/
inductive CalibOutcome where
  | ok
  | err (e : CalibError)
  | panicked
deriving Repr, DecidableEq

/-- The slice of `MainData` that `calibrate_camera` reads and writes: the
accumulated calibration frames and the stored in-memory result. -/
structure CalibState (Img : Type) where
  charuco_images : List Img
  cd : Option CalibrationData

/-- The per-image loop of `calibrate_camera` (main.rs lines 329-387): a frame
whose marker detection errored is skipped; the first interpolation error
aborts the whole loop through `?`; otherwise each frame's corners and ids are
appended, in frame order, to the accumulated flattened vectors. -/
def accumulateCorners {Img P : Type} (detect : Img → DetectOutcome P) :
    List Img → Except CalibError (List P × List Int)
  | [] => .ok ([], [])
  | img :: rest =>
    match detect img with
    | .detectFail => accumulateCorners detect rest
    | .interpFail => .error .interpolationFailed
    | .found cs ids => do
        let acc ← accumulateCorners detect rest
        .ok (cs ++ acc.1, ids ++ acc.2)

/-- `MainData::calibrate_camera` (main.rs lines 316-427).  `dict` is whether
`get_charuco_dictionary()` returned `Some`; `persistOk` is whether creating
and writing `./test.bin` succeeds.  The accumulated images are opencv
matrices; `calibrate_camera_charuco` (external) is the oracle `solver`, fed
the flattened correspondences together with the image size read as
`(charuco_images[0].cols(), charuco_images[0].rows())` — the first image of
the *unfiltered* accumulated list (main.rs lines 396-399), which the empty
check has already guaranteed to exist.  Returns the call's outcome together
with the value of `self.cd` after the call.  The solver's own result is
ignored by the source; bincode encoding of this type cannot fail, so the
write is always attempted, and a failing write panics through `unwrap`
before `self.cd` is assigned. -/
def calibrate_camera {P : Type} (dict : Bool)
    (detect : Mat → DetectOutcome P)
    (solver : List P → List Int → Int × Int → Mat × Mat)
    (persistOk : Bool) (st : CalibState Mat) :
    CalibOutcome × Option CalibrationData :=
  if dict then
    match st.charuco_images with
    | [] => (.err .insufficientObservations, st.cd)
    | img0 :: rest =>
      match accumulateCorners detect (img0 :: rest) with
      | .error e => (.err e, st.cd)
      | .ok acc =>
          let mats := solver acc.1 acc.2 (img0.width, img0.height)
          let cd := CalibrationData.OpenCvCharuco (matToSaveable mats.1)
            (matToSaveable mats.2)
          let _data := encodeCalibrationData cd
          if persistOk then (.ok, some cd) else (.panicked, st.cd)
  else (.err .dictionaryUnavailable, st.cd)

/-- C3: invoking the solve with zero accumulated observations returns an
error — `InsufficientObservations` whenever the (fixed, external) marker
dictionary is available — and never a partial result: the stored
`CalibrationResult`, if any, is returned unchanged. -/
theorem calibrate_camera_zero_observations {P : Type} (dict : Bool)
    (detect : Mat → DetectOutcome P)
    (solver : List P → List Int → Int × Int → Mat × Mat)
    (persistOk : Bool) (st : CalibState Mat)
    (h : st.charuco_images = []) :
    calibrate_camera dict detect solver persistOk st =
      (.err (if dict then .insufficientObservations
        else .dictionaryUnavailable), st.cd) := by
  cases dict <;> simp [calibrate_camera, h]

/-- Witness for `calibrate_camera_zero_observations`: an empty frame list with
a previously stored result leaves that result in place and reports
`insufficientObservations`. -/
theorem calibrate_camera_zero_observations_witness :
    calibrate_camera true (fun _ : Mat => (.detectFail : DetectOutcome Nat))
      (fun _ _ _ => (⟨0, 0, 0, []⟩, ⟨0, 0, 0, []⟩)) true
      ⟨[], some (.OpenCvCharuco ⟨1, 1, 0, []⟩ ⟨1, 1, 0, []⟩)⟩ =
      (.err (if true then .insufficientObservations else .dictionaryUnavailable),
        some (.OpenCvCharuco ⟨1, 1, 0, []⟩ ⟨1, 1, 0, []⟩)) :=
  calibrate_camera_zero_observations true _ _ true _ rfl

theorem isEmpty_false_of_ne_nil {α : Type} {l : List α} (h : l ≠ []) :
    l.isEmpty = false := by
  cases l with
  | nil => exact absurd rfl h
  | cons x xs => rfl

theorem calibrate_camera_cons {P : Type}
    (detect : Mat → DetectOutcome P)
    (solver : List P → List Int → Int × Int → Mat × Mat)
    (persistOk : Bool) (img0 : Mat) (rest : List Mat)
    (cd0 : Option CalibrationData) :
    calibrate_camera true detect solver persistOk ⟨img0 :: rest, cd0⟩ =
      match accumulateCorners detect (img0 :: rest) with
      | .error e => (.err e, cd0)
      | .ok acc =>
          if persistOk then
            (.ok, some (.OpenCvCharuco
              (matToSaveable (solver acc.1 acc.2 (img0.width, img0.height)).1)
              (matToSaveable (solver acc.1 acc.2 (img0.width, img0.height)).2)))
          else (.panicked, cd0) := by
  cases hacc : accumulateCorners detect (img0 :: rest) with
  | error e => simp [calibrate_camera, hacc]
  | ok acc => simp [calibrate_camera, hacc]

theorem accumulateCorners_skip {Img P : Type}
    (detect : Img → DetectOutcome P) (img : Img)
    (himg : detect img = .detectFail) (pre post : List Img) :
    accumulateCorners detect (pre ++ img :: post) =
      accumulateCorners detect (pre ++ post) := by
  induction pre with
  | nil => simp [accumulateCorners, himg]
  | cons x xs ih =>
      cases hx : detect x <;>
        simp [accumulateCorners, hx, ih]

theorem accumulateCorners_abort {Img P : Type}
    (detect : Img → DetectOutcome P) (img : Img)
    (himg : detect img = .interpFail) (pre post : List Img)
    (hpre : ∀ x ∈ pre, detect x ≠ .interpFail) :
    accumulateCorners detect (pre ++ img :: post) =
      .error .interpolationFailed := by
  induction pre with
  | nil => simp [accumulateCorners, himg]
  | cons x xs ih =>
      have hx2 : detect x ≠ .interpFail := hpre x (by simp)
      have ihx := ih fun y hy => hpre y (by simp [hy])
      cases hx : detect x with
      | detectFail => simp [accumulateCorners, hx, ihx]
      | interpFail => exact absurd hx hx2
      | found cs ids =>
          simp only [List.cons_append, accumulateCorners, List.append_eq,
            hx, ihx]
          rfl

/-- C4 (amended): inside the solve loop, a detection-layer failure on one
accumulated frame is absorbed locally — the frame contributes no
correspondences and the loop continues over the remaining frames; when the
skipped frame is not the first accumulated image, the whole solve result is
exactly as if that frame had never been accumulated (the first image's
dimensions are still read as the solver's image size, main.rs lines 396-399,
even when that image itself failed detection) — whereas an
interpolation-layer failure on a frame aborts the whole solve with an error,
leaving the stored result unchanged. -/
theorem calibrate_camera_detect_skip_interp_abort {P : Type} (dict : Bool)
    (detect : Mat → DetectOutcome P)
    (solver : List P → List Int → Int × Int → Mat × Mat)
    (persistOk : Bool) (pre post : List Mat) (img : Mat)
    (cd0 : Option CalibrationData) :
    (detect img = .detectFail →
      accumulateCorners detect (pre ++ img :: post) =
        accumulateCorners detect (pre ++ post)) ∧
    (detect img = .detectFail → pre ≠ [] →
      calibrate_camera dict detect solver persistOk ⟨pre ++ img :: post, cd0⟩ =
        calibrate_camera dict detect solver persistOk ⟨pre ++ post, cd0⟩) ∧
    (detect img = .interpFail → (∀ x ∈ pre, detect x ≠ .interpFail) →
      dict = true →
      calibrate_camera dict detect solver persistOk ⟨pre ++ img :: post, cd0⟩ =
        (.err .interpolationFailed, cd0)) := by
  refine ⟨fun himg => accumulateCorners_skip detect img himg pre post,
    ?_, ?_⟩
  · intro himg hpre
    obtain ⟨p0, pre2, rfl⟩ : ∃ p0 pre2, pre = p0 :: pre2 := by
      cases pre with
      | nil => exact absurd rfl hpre
      | cons p0 pre2 => exact ⟨p0, pre2, rfl⟩
    have hskip := accumulateCorners_skip detect img himg (p0 :: pre2) post
    cases dict
    · simp [calibrate_camera]
    · rw [List.cons_append, List.cons_append] at hskip ⊢
      rw [calibrate_camera_cons, calibrate_camera_cons, hskip]
  · intro himg hpre hdict
    subst hdict
    have habort := accumulateCorners_abort detect img himg pre post hpre
    cases pre with
    | nil =>
        rw [List.nil_append] at habort ⊢
        rw [calibrate_camera_cons, habort]
    | cons p0 pre2 =>
        rw [List.cons_append] at habort ⊢
        rw [calibrate_camera_cons, habort]

/-- Witness for `calibrate_camera_detect_skip_interp_abort`: a 0-wide frame
fails detection — it contributes no correspondences, and skipped behind a
good first frame it leaves the solve unchanged; a 2-wide frame fails
interpolation and aborts the solve. -/
theorem calibrate_camera_detect_skip_interp_abort_witness :
    (accumulateCorners
        (fun m : Mat => if m.width = 0 then (.detectFail : DetectOutcome Nat)
          else if m.width = 2 then .interpFail else .found [1] [1])
        ([] ++ (⟨0, 0, 16, []⟩ : Mat) :: [⟨1, 1, 16, []⟩]) =
      accumulateCorners
        (fun m : Mat => if m.width = 0 then (.detectFail : DetectOutcome Nat)
          else if m.width = 2 then .interpFail else .found [1] [1])
        ([] ++ [⟨1, 1, 16, []⟩])) ∧
    (calibrate_camera true
        (fun m : Mat => if m.width = 0 then (.detectFail : DetectOutcome Nat)
          else if m.width = 2 then .interpFail else .found [1] [1])
        (fun _ _ sz => (⟨sz.1, sz.2, 6, []⟩, ⟨5, 1, 6, []⟩)) true
        ⟨[⟨1, 1, 16, []⟩] ++ (⟨0, 0, 16, []⟩ : Mat) :: [], none⟩ =
      calibrate_camera true
        (fun m : Mat => if m.width = 0 then (.detectFail : DetectOutcome Nat)
          else if m.width = 2 then .interpFail else .found [1] [1])
        (fun _ _ sz => (⟨sz.1, sz.2, 6, []⟩, ⟨5, 1, 6, []⟩)) true
        ⟨[⟨1, 1, 16, []⟩] ++ [], none⟩) ∧
    calibrate_camera true
        (fun m : Mat => if m.width = 0 then (.detectFail : DetectOutcome Nat)
          else if m.width = 2 then .interpFail else .found [1] [1])
        (fun _ _ sz => (⟨sz.1, sz.2, 6, []⟩, ⟨5, 1, 6, []⟩)) true
        ⟨[⟨1, 1, 16, []⟩] ++ (⟨2, 2, 16, []⟩ : Mat) :: [], none⟩ =
      (.err .interpolationFailed, none) := by
  refine ⟨?_, ?_, ?_⟩
  · exact (calibrate_camera_detect_skip_interp_abort true _
      (fun _ _ sz => (⟨sz.1, sz.2, 6, []⟩, ⟨5, 1, 6, []⟩)) true
      [] [⟨1, 1, 16, []⟩] ⟨0, 0, 16, []⟩ none).1 (by decide)
  · exact (calibrate_camera_detect_skip_interp_abort true _ _ true
      [⟨1, 1, 16, []⟩] [] ⟨0, 0, 16, []⟩ none).2.1 (by decide) (by decide)
  · exact (calibrate_camera_detect_skip_interp_abort true _ _ true
      [⟨1, 1, 16, []⟩] [] ⟨2, 2, 16, []⟩ none).2.2 (by decide) (by decide) rfl

/-- C4 counterexample: with two accumulated frames where the first fails at
the interpolation layer and the second is perfectly usable, the solve aborts
with an error instead of skipping the failing frame — removing that frame
makes the very same solve succeed.  So an interpolation-layer failure is not
absorbed locally. -/
theorem calibrate_camera_interp_abort_cex :
    calibrate_camera true
        (fun m : Mat => if m.width = 2 then (.interpFail : DetectOutcome Nat)
          else .found [1] [1])
        (fun _ _ sz => (⟨sz.1, sz.2, 6, []⟩, ⟨5, 1, 6, []⟩)) true
        ⟨[⟨2, 2, 16, []⟩, ⟨1, 1, 16, []⟩], none⟩ =
      (.err .interpolationFailed, none) ∧
    calibrate_camera true
        (fun m : Mat => if m.width = 2 then (.interpFail : DetectOutcome Nat)
          else .found [1] [1])
        (fun _ _ sz => (⟨sz.1, sz.2, 6, []⟩, ⟨5, 1, 6, []⟩)) true
        ⟨[⟨1, 1, 16, []⟩], none⟩ =
      (.ok, some (.OpenCvCharuco ⟨1, 1, CV_64FC1, []⟩ ⟨5, 1, CV_64FC1, []⟩)) := by
  constructor <;> rfl

/-- C5 (amended): after a solve whose detection/interpolation loop succeeds,
the result is serialized and written to `./test.bin` *before* `self.cd` is
assigned: if the write succeeds, the in-memory result is stored and `Ok`
returned; if the write fails, the program panics through `unwrap` — the
failure is not reported as a result value, and the freshly computed result is
never stored, the previously stored result (if any) being left in place. -/
theorem calibrate_camera_persistence {P : Type}
    (detect : Mat → DetectOutcome P)
    (solver : List P → List Int → Int × Int → Mat × Mat)
    (img0 : Mat) (rest : List Mat) (cd0 : Option CalibrationData)
    (acc : List P × List Int)
    (hacc : accumulateCorners detect (img0 :: rest) = .ok acc) :
    calibrate_camera true detect solver true ⟨img0 :: rest, cd0⟩ =
      (.ok, some (.OpenCvCharuco
        (matToSaveable (solver acc.1 acc.2 (img0.width, img0.height)).1)
        (matToSaveable (solver acc.1 acc.2 (img0.width, img0.height)).2))) ∧
    calibrate_camera true detect solver false ⟨img0 :: rest, cd0⟩ =
      (.panicked, cd0) := by
  constructor <;>
    · rw [calibrate_camera_cons, hacc]
      rfl

/-- Witness for `calibrate_camera_persistence`: one usable 100×50 frame; with
the write succeeding the result — whose camera matrix records the frame's
size — is stored, with it failing the call panics and the previously stored
result survives. -/
theorem calibrate_camera_persistence_witness :
    calibrate_camera true (fun _ : Mat => (.found [4] [9] : DetectOutcome Nat))
        (fun cs _ sz => (⟨sz.1, sz.2, 6, []⟩, ⟨(cs.length : Int), 1, 6, []⟩))
        true ⟨[⟨100, 50, 16, []⟩],
          some (.OpenCvCharuco ⟨0, 0, 0, []⟩ ⟨0, 0, 0, []⟩)⟩ =
      (.ok, some (.OpenCvCharuco ⟨100, 50, CV_64FC1, []⟩ ⟨1, 1, CV_64FC1, []⟩)) ∧
    calibrate_camera true (fun _ : Mat => (.found [4] [9] : DetectOutcome Nat))
        (fun cs _ sz => (⟨sz.1, sz.2, 6, []⟩, ⟨(cs.length : Int), 1, 6, []⟩))
        false ⟨[⟨100, 50, 16, []⟩],
          some (.OpenCvCharuco ⟨0, 0, 0, []⟩ ⟨0, 0, 0, []⟩)⟩ =
      (.panicked, some (.OpenCvCharuco ⟨0, 0, 0, []⟩ ⟨0, 0, 0, []⟩)) :=
  calibrate_camera_persistence _ _ ⟨100, 50, 16, []⟩ [] _ ([4], [9]) rfl

/-- C5 counterexample: a solve over one perfectly usable frame with a failing
persistence step neither reports the failure as a result nor keeps the
computed calibration — it panics, and `self.cd` (here previously `none`)
still holds no result afterwards. -/
theorem calibrate_camera_persist_panic_cex :
    calibrate_camera true (fun _ : Mat => (.found [4] [9] : DetectOutcome Nat))
        (fun _ _ sz => (⟨sz.1, sz.2, 6, []⟩, ⟨5, 1, 6, []⟩)) false
        ⟨[⟨100, 50, 16, []⟩], none⟩ =
      (.panicked, none) := by
  rfl

/-! ### The capture worker `live_camera_thread` (main.rs lines 133-168)

The command channel is modelled as the list of pending commands (an empty
list is an empty channel: `try_recv` yields nothing).  Camera devices are
external; a `Camera` value carries the observable behaviour the worker code
depends on: whether the handle is currently open, whether an `open` call on
the device would succeed, and the stream of `read` results the device will
deliver while open. -/

/-- An `OpenCvCamera` handle as the worker drives it.  `opened` is
`cam.is_some()`; `openSucceeds` is whether the external
`VideoCapture::open` call succeeds for this device; `feed` is the stream of
successive `read` results of the open device (`none`: no decodable frame on
that cycle). -/
structure Camera where
  opened : Bool
  openSucceeds : Bool
  feed : List (Option Mat)
deriving Repr, DecidableEq

/-- `OpenCvCamera::open` (main.rs lines 215-232): a no-op when already open,
otherwise opens the device if the external open call succeeds. -/
def Camera.openCam (c : Camera) : Camera :=
  if c.opened then c else { c with opened := c.openSucceeds }

/-- `OpenCvCamera::close` (main.rs lines 193-195). -/
def Camera.closeCam (c : Camera) : Camera := { c with opened := false }

/-- `OpenCvCamera::is_open` (main.rs lines 197-199). -/
def Camera.is_open (c : Camera) : Bool := c.opened

/-- `OpenCvCamera::get_image` (main.rs lines 201-213): one non-blocking read;
`none` when the handle is closed or the device produced no decodable frame. -/
def Camera.get_image (c : Camera) : Option Mat × Camera :=
  if c.opened then
    match c.feed with
    | [] => (none, c)
    | f :: rest => (f, { c with feed := rest })
  else (none, c)

/-- `ToCameraThread` (main.rs lines 122-127). -/
inductive ToCameraThread where
  | validCamera (i : Int) (c : Camera)
  | openCamera (i : Int)
  | closeCamera (i : Int)
  | quit
deriving Repr, DecidableEq

/-- Whether a command is the `Quit`/shutdown command. -/
def ToCameraThread.isQuit : ToCameraThread → Bool
  | .quit => true
  | _ => false

/-- Whether a command registers a camera under id `i`. -/
def registersId (i : Int) : ToCameraThread → Bool
  | .validCamera j _ => j == i
  | _ => false

/-- Key-ordered insertion, modelling `BTreeMap::insert` on `i32` keys. -/
def insertCam (i : Int) (c : Camera) :
    List (Int × Camera) → List (Int × Camera)
  | [] => [(i, c)]
  | (j, d) :: rest =>
    if i < j then (i, c) :: (j, d) :: rest
    else if i = j then (i, c) :: rest
    else (j, d) :: insertCam i c rest

/-- `BTreeMap::get_mut(&i)` followed by an in-place update: a no-op when the
key is absent. -/
def modifyCam (i : Int) (f : Camera → Camera) :
    List (Int × Camera) → List (Int × Camera)
  | [] => []
  | (j, d) :: rest =>
    if i = j then (j, f d) :: rest else (j, d) :: modifyCam i f rest

/-- The command-drain arm of one worker-loop iteration (main.rs lines
139-158): the effect of the single received command on the camera map, plus
whether the `Quit` arm's `break` fires. -/
def stepCmd (cmd : ToCameraThread) (cams : List (Int × Camera)) :
    List (Int × Camera) × Bool :=
  match cmd with
  | .validCamera i c => (insertCam i c cams, false)
  | .openCamera i => (modifyCam i Camera.openCam cams, false)
  | .closeCamera i => (modifyCam i Camera.closeCam cams, false)
  | .quit => (cams, true)

/-- The frame-forwarding arm of one iteration (main.rs lines 159-166): each
camera in key order gets one non-blocking read when open; successfully
decoded frames are forwarded; a device producing no frame is skipped. -/
def pollCams : List (Int × Camera) → List (Int × Mat) × List (Int × Camera)
  | [] => ([], [])
  | (i, c) :: rest =>
    let r := if c.is_open then c.get_image else (none, c)
    let rr := pollCams rest
    match r.1 with
    | some m => ((i, m) :: rr.1, (i, r.2) :: rr.2)
    | none => (rr.1, (i, r.2) :: rr.2)

/-- What one iteration of the worker loop produces. -/
structure IterResult where
  remaining : List ToCameraThread
  cams : List (Int × Camera)
  frames : List (Int × Mat)
  quit : Bool
deriving Repr, DecidableEq

/-- One iteration of `live_camera_thread`'s loop: drain at most one pending
command (`Quit` breaks immediately, before any polling), then poll every
currently open device once. -/
def stepIter (pending : List ToCameraThread) (cams : List (Int × Camera)) :
    IterResult :=
  match pending with
  | [] =>
      let rr := pollCams cams
      ⟨[], rr.2, rr.1, false⟩
  | cmd :: rest =>
      let s := stepCmd cmd cams
      if s.2 then ⟨rest, s.1, [], true⟩
      else
        let rr := pollCams s.1
        ⟨rest, rr.2, rr.1, false⟩

/-- `live_camera_thread`'s loop run for at most `fuel` iterations: the log of
all frames sent over the frame channel, and whether the loop has terminated
within those iterations. -/
def runWorker : Nat → List ToCameraThread → List (Int × Camera) →
    List (Int × Mat) × Bool
  | 0, _, _ => ([], false)
  | fuel + 1, pending, cams =>
      let r := stepIter pending cams
      if r.quit then (r.frames, true)
      else
        let rec2 := runWorker fuel r.remaining r.cams
        (r.frames ++ rec2.1, rec2.2)

/-- The expected read result of one camera entry: `some` frame exactly when
the device is open and its next read decodes a frame. -/
def readPair (p : Int × Camera) : Option (Int × Mat) :=
  if p.2.opened then p.2.feed.head?.join.map (fun m => (p.1, m)) else none

/-- One read consumed: an open device's feed advances by one entry. -/
def advancePair (p : Int × Camera) : Int × Camera :=
  (p.1, if p.2.opened then { p.2 with feed := p.2.feed.tail } else p.2)

/-- The camera map after the (at most one) drained command of an iteration. -/
def camsAfterCmd (pending : List ToCameraThread)
    (cams : List (Int × Camera)) : List (Int × Camera) :=
  match pending with
  | [] => cams
  | cmd :: _ => (stepCmd cmd cams).1

theorem pollCams_spec (cams : List (Int × Camera)) :
    pollCams cams = (cams.filterMap readPair, cams.map advancePair) := by
  induction cams with
  | nil => rfl
  | cons p rest ih =>
      obtain ⟨i, op, os, feed⟩ := p
      cases op with
      | false => simp [pollCams, Camera.is_open, readPair, advancePair, ih]
      | true =>
          cases feed with
          | nil =>
              simp [pollCams, Camera.is_open, Camera.get_image, readPair,
                advancePair, ih]
          | cons f rest2 =>
              cases f with
              | none =>
                  simp [pollCams, Camera.is_open, Camera.get_image, readPair,
                    advancePair, ih]
              | some m =>
                  simp [pollCams, Camera.is_open, Camera.get_image, readPair,
                    advancePair, ih]

theorem stepIter_remaining (pending : List ToCameraThread)
    (cams : List (Int × Camera)) :
    (stepIter pending cams).remaining = pending.drop 1 := by
  cases pending with
  | nil => rfl
  | cons cmd rest => cases cmd <;> rfl

theorem stepIter_quit (pending : List ToCameraThread)
    (cams : List (Int × Camera)) :
    (stepIter pending cams).quit =
      (match pending with
        | ToCameraThread.quit :: _ => true
        | _ => false) := by
  cases pending with
  | nil => rfl
  | cons cmd rest => cases cmd <;> rfl

theorem stepIter_frames (pending : List ToCameraThread)
    (cams : List (Int × Camera)) :
    (stepIter pending cams).frames =
      (if (stepIter pending cams).quit then []
       else (camsAfterCmd pending cams).filterMap readPair) := by
  cases pending with
  | nil => simp [stepIter, camsAfterCmd, pollCams_spec]
  | cons cmd rest =>
      cases cmd <;> simp [stepIter, stepCmd, camsAfterCmd, pollCams_spec]

theorem stepIter_cams (pending : List ToCameraThread)
    (cams : List (Int × Camera)) :
    (stepIter pending cams).cams =
      (if (stepIter pending cams).quit then camsAfterCmd pending cams
       else (camsAfterCmd pending cams).map advancePair) := by
  cases pending with
  | nil => simp [stepIter, camsAfterCmd, pollCams_spec]
  | cons cmd rest =>
      cases cmd <;> simp [stepIter, stepCmd, camsAfterCmd, pollCams_spec]

theorem runWorker_succ (fuel : Nat) (pending : List ToCameraThread)
    (cams : List (Int × Camera)) :
    runWorker (fuel + 1) pending cams =
      (if (stepIter pending cams).quit then
        ((stepIter pending cams).frames, true)
      else
        ((stepIter pending cams).frames ++
          (runWorker fuel (stepIter pending cams).remaining
            (stepIter pending cams).cams).1,
          (runWorker fuel (stepIter pending cams).remaining
            (stepIter pending cams).cams).2)) := rfl

theorem runWorker_finished (fuel : Nat) :
    ∀ (pending : List ToCameraThread) (cams : List (Int × Camera)),
      (runWorker fuel pending cams).2 =
        (pending.take fuel).any ToCameraThread.isQuit := by
  induction fuel with
  | zero => intro pending cams; rfl
  | succ fuel ih =>
      intro pending cams
      rw [runWorker_succ]
      cases pending with
      | nil =>
          simp [stepIter_quit, ih, stepIter_remaining]
      | cons cmd rest =>
          cases cmd <;>
            simp [stepIter_quit, ih, stepIter_remaining,
              ToCameraThread.isQuit, List.take_succ_cons, List.any_cons]

/-- C6: each iteration of the capture-worker loop drains at most one pending
command (the remaining queue is the old one minus its head); the iteration
breaks the loop exactly when the drained command is `Quit` (frame absence
never does); when it does not quit, the frames forwarded are exactly the
successful non-blocking reads — one per currently open device of the
post-command camera map, in key order, devices producing no frame being
silently skipped while every open device's read is still consumed; and the
whole loop, run on any fuel, has terminated precisely when a `Quit` command
was among the commands drained. -/
theorem live_camera_thread_iteration (pending : List ToCameraThread)
    (cams : List (Int × Camera)) (fuel : Nat) :
    (stepIter pending cams).remaining = pending.drop 1 ∧
    (stepIter pending cams).quit =
      (match pending with
        | ToCameraThread.quit :: _ => true
        | _ => false) ∧
    (stepIter pending cams).frames =
      (if (stepIter pending cams).quit then []
       else (camsAfterCmd pending cams).filterMap readPair) ∧
    (stepIter pending cams).cams =
      (if (stepIter pending cams).quit then camsAfterCmd pending cams
       else (camsAfterCmd pending cams).map advancePair) ∧
    (runWorker fuel pending cams).2 =
      (pending.take fuel).any ToCameraThread.isQuit :=
  ⟨stepIter_remaining pending cams, stepIter_quit pending cams,
    stepIter_frames pending cams, stepIter_cams pending cams,
    runWorker_finished fuel pending cams⟩

theorem mem_keys_insertCam (j : Int) (c : Camera) :
    ∀ (cams : List (Int × Camera)) (i : Int),
      i ∈ (insertCam j c cams).map Prod.fst →
        i = j ∨ i ∈ cams.map Prod.fst := by
  intro cams
  induction cams with
  | nil =>
      intro i hi
      simp only [insertCam, List.map_cons, List.map_nil, List.mem_cons,
        List.not_mem_nil, or_false] at hi
      exact Or.inl hi
  | cons p rest ih =>
      obtain ⟨k, d⟩ := p
      intro i hi
      simp only [insertCam] at hi
      by_cases h1 : j < k
      · rw [if_pos h1] at hi
        simp only [List.map_cons, List.mem_cons] at hi
        rcases hi with h | h | h
        · exact Or.inl h
        · exact Or.inr (by simp only [List.map_cons, List.mem_cons]; exact Or.inl h)
        · exact Or.inr (by simp only [List.map_cons, List.mem_cons]; exact Or.inr h)
      · rw [if_neg h1] at hi
        by_cases h2 : j = k
        · rw [if_pos h2] at hi
          simp only [List.map_cons, List.mem_cons] at hi
          rcases hi with h | h
          · exact Or.inl h
          · exact Or.inr (by simp only [List.map_cons, List.mem_cons]; exact Or.inr h)
        · rw [if_neg h2] at hi
          simp only [List.map_cons, List.mem_cons] at hi
          rcases hi with h | h
          · exact Or.inr (by simp only [List.map_cons, List.mem_cons]; exact Or.inl h)
          · rcases ih i h with hh | hh
            · exact Or.inl hh
            · exact Or.inr
                (by simp only [List.map_cons, List.mem_cons]; exact Or.inr hh)

theorem keys_modifyCam (j : Int) (f : Camera → Camera) :
    ∀ cams : List (Int × Camera),
      (modifyCam j f cams).map Prod.fst = cams.map Prod.fst := by
  intro cams
  induction cams with
  | nil => rfl
  | cons p rest ih =>
      obtain ⟨k, d⟩ := p
      by_cases h : j = k <;> simp [modifyCam, h, ih]

theorem mem_keys_stepCmd (cmd : ToCameraThread) (cams : List (Int × Camera))
    (i : Int) (hcmd : registersId i cmd = false)
    (hi : i ∉ cams.map Prod.fst) :
    i ∉ ((stepCmd cmd cams).1).map Prod.fst := by
  cases cmd with
  | validCamera j c =>
      intro hmem
      rcases mem_keys_insertCam j c cams i hmem with h | h
      · simp [registersId] at hcmd
        exact hcmd h.symm
      · exact hi h
  | openCamera j => simpa [stepCmd, keys_modifyCam] using hi
  | closeCamera j => simpa [stepCmd, keys_modifyCam] using hi
  | quit => simpa [stepCmd] using hi

theorem readPair_fst (p : Int × Camera) (q : Int × Mat)
    (h : readPair p = some q) : q.1 = p.1 := by
  unfold readPair at h
  by_cases hp : p.2.opened
  · rw [if_pos hp] at h
    cases hjoin : p.2.feed.head?.join with
    | none => rw [hjoin] at h; simp at h
    | some m =>
        rw [hjoin] at h
        simp at h
        rw [← h]
  · rw [if_neg hp] at h
    exact absurd h (by simp)

theorem mem_frames_keys (cams : List (Int × Camera)) (q : Int × Mat)
    (h : q ∈ cams.filterMap readPair) : q.1 ∈ cams.map Prod.fst := by
  rcases List.mem_filterMap.mp h with ⟨p, hp, hread⟩
  rw [readPair_fst p q hread]
  exact List.mem_map_of_mem Prod.fst hp

theorem keys_advancePairs (cams : List (Int × Camera)) :
    (cams.map advancePair).map Prod.fst = cams.map Prod.fst := by
  simp [List.map_map, Function.comp, advancePair]

/-- C7: if id `i` is not in the worker's camera map and no pending command
ever registers a camera under id `i` — in particular after an `Open(i)` for a
never-registered `i`, which the worker treats as a no-op rather than a crash
(the model stays total) — then no frame tagged `i` is ever emitted on the
frame channel, for any number of loop iterations. -/
theorem live_camera_thread_unregistered_id (i : Int) :
    ∀ (fuel : Nat) (pending : List ToCameraThread)
      (cams : List (Int × Camera)),
      i ∉ cams.map Prod.fst →
      (∀ cmd ∈ pending, registersId i cmd = false) →
      (runWorker fuel pending cams).1.all (fun q => q.1 != i) = true := by
  intro fuel
  induction fuel with
  | zero => intro pending cams _ _; rfl
  | succ fuel ih =>
      intro pending cams hcams hpending
      have hkeysAfter : i ∉ (camsAfterCmd pending cams).map Prod.fst := by
        cases pending with
        | nil => exact hcams
        | cons cmd rest =>
            exact mem_keys_stepCmd cmd cams i (hpending cmd (by simp)) hcams
      have hframes : ∀ q ∈ (stepIter pending cams).frames, q.1 ≠ i := by
        intro q hq
        rw [stepIter_frames] at hq
        cases hquit : (stepIter pending cams).quit
        · rw [hquit, if_neg (by simp)] at hq
          intro he
          exact hkeysAfter (he ▸ mem_frames_keys _ q hq)
        · rw [hquit, if_pos rfl] at hq
          exact absurd hq (List.not_mem_nil q)
      have hkeys2 : i ∉ (stepIter pending cams).cams.map Prod.fst := by
        rw [stepIter_cams]
        cases hquit : (stepIter pending cams).quit
        · rw [if_neg (by simp), keys_advancePairs]
          exact hkeysAfter
        · rw [if_pos rfl]
          exact hkeysAfter
      have hpend2 : ∀ cmd ∈ (stepIter pending cams).remaining,
          registersId i cmd = false := by
        rw [stepIter_remaining]
        intro cmd hcmd
        exact hpending cmd (List.drop_subset 1 pending hcmd)
      rw [runWorker_succ]
      cases hquit : (stepIter pending cams).quit
      · rw [if_neg (by simp [hquit])]
        simp only [List.all_append, Bool.and_eq_true]
        constructor
        · simp only [List.all_eq_true, bne_iff_ne]
          exact hframes
        · exact ih (stepIter pending cams).remaining
            (stepIter pending cams).cams hkeys2 hpend2
      · rw [if_pos rfl]
        simp only [List.all_eq_true, bne_iff_ne]
        exact hframes

/-- Witness for `live_camera_thread_unregistered_id`: the scenario of the
spec — `Open(3)` with id 3 unregistered, an empty camera map, two loop
iterations: no frame tagged 3 (indeed no frame at all) is emitted. -/
theorem live_camera_thread_unregistered_id_witness :
    (runWorker 2 [ToCameraThread.openCamera 3] []).1.all
      (fun q => q.1 != 3) = true :=
  live_camera_thread_unregistered_id 3 2 [ToCameraThread.openCamera 3] []
    (by simp) (by decide)

/-! ### The radial profile and the `splines` crate sampler (main.rs 708-729)

The source builds one `splines::Key` per entry of `self.scale`, at time
`i / (len - 1)` with `Interpolation::Cosine`, and evaluates the spline with
`clamped_sample`.  The crate is external; its sampler is embedded below over
`ℚ`, with the two-point interpolation kernel as a parameter `interp nt a b`.
The crate's cosine kernel is `a * (1 - w) + b * w` with
`w = (1 - cos (nt * π)) / 2`, whose decisive property — `w = 0`, hence value
`a`, at `nt = 0`, exactly, even in IEEE arithmetic since `cos 0 = 1` — is the
hypothesis `interp 0 a b = a` of the theorems. -/

/-- A `splines::Key` as the source constructs it: sample time (the
normalized radius) and value (the correction factor). -/
structure SplineKey where
  t : ℚ
  value : ℚ
deriving Repr, DecidableEq

/-- `splines::Spline::sample` for keys with increasing times: find the
control-point pair whose half-open time interval `[t_i, t_{i+1})` contains
`t` and interpolate; `none` below the first key or at/after the last key
(also on fewer than two keys). -/
def splineSample (interp : ℚ → ℚ → ℚ → ℚ) :
    List SplineKey → ℚ → Option ℚ
  | k0 :: k1 :: rest, t =>
      if t < k0.t then none
      else if t < k1.t then
        some (interp ((t - k0.t) / (k1.t - k0.t)) k0.value k1.value)
      else splineSample interp (k1 :: rest) t
  | _, _ => none

/-- `splines::Spline::clamped_sample`: like `sample`, but a time at or below
the first key's clamps to the first key's value and a time at or above the
last key's clamps to the last key's value; `none` only on an empty spline. -/
def clampedSample (interp : ℚ → ℚ → ℚ → ℚ) (keys : List SplineKey)
    (t : ℚ) : Option ℚ :=
  if keys.isEmpty then none
  else
    match splineSample interp keys t with
    | some v => some v
    | none =>
        match keys.head?, keys.getLast? with
        | some first, some last =>
            if t ≤ first.t then some first.value
            else if last.t ≤ t then some last.value
            else none
        | _, _ => none

/-- The radial profile the source builds from `self.scale` (main.rs lines
710-722): control point `i` at normalized radius `i / (len - 1)` with value
`scale[i]`. -/
def mkProfile (scale : List ℚ) : List SplineKey :=
  scale.enum.map fun p => ⟨(p.1 : ℚ) / ((scale.length - 1 : ℕ) : ℚ), p.2⟩

theorem mkProfile_length (scale : List ℚ) :
    (mkProfile scale).length = scale.length := by
  simp [mkProfile]

theorem mkProfile_get (scale : List ℚ) (i : ℕ) (hi : i < scale.length)
    (h2 : i < (mkProfile scale).length) :
    (mkProfile scale).get ⟨i, h2⟩ =
      ⟨(i : ℚ) / ((scale.length - 1 : ℕ) : ℚ), scale.get ⟨i, hi⟩⟩ := by
  simp [mkProfile, List.get_eq_getElem]

theorem mkProfile_sorted (scale : List ℚ) (hlen : 2 ≤ scale.length) :
    List.Pairwise (fun a b => a.t < b.t) (mkProfile scale) := by
  apply List.pairwise_iff_get.mpr
  intro i j hij
  have hi : (i : ℕ) < scale.length := by
    simpa [mkProfile_length] using i.isLt
  have hj : (j : ℕ) < scale.length := by
    simpa [mkProfile_length] using j.isLt
  rw [mkProfile_get scale i hi i.isLt, mkProfile_get scale j hj j.isLt]
  have hpos : (0 : ℚ) < ((scale.length - 1 : ℕ) : ℚ) := by
    have : 1 ≤ scale.length - 1 := by omega
    exact_mod_cast Nat.lt_of_lt_of_le Nat.zero_lt_one this
  exact div_lt_div_of_pos_right (by exact_mod_cast hij) hpos

theorem mkProfile_time_le_one (scale : List ℚ) (hlen : 2 ≤ scale.length) :
    ∀ k ∈ mkProfile scale, k.t ≤ 1 := by
  intro k hk
  obtain ⟨p, hp, rfl⟩ := List.mem_map.mp hk
  obtain ⟨i, hilt, hget⟩ := List.mem_iff_getElem.mp hp
  rw [List.getElem_enum] at hget
  have hi : i < scale.length := by
    rw [List.enum_length] at hilt; exact hilt
  have hfst : p.1 = i := by rw [← hget]
  have hpos : (0 : ℚ) < ((scale.length - 1 : ℕ) : ℚ) := by
    have : 1 ≤ scale.length - 1 := by omega
    exact_mod_cast Nat.lt_of_lt_of_le Nat.zero_lt_one this
  show ((p.1 : ℚ)) / ((scale.length - 1 : ℕ) : ℚ) ≤ 1
  rw [div_le_one hpos, hfst]
  exact_mod_cast (by omega : i ≤ scale.length - 1)

theorem splineSample_none_of_ge (interp : ℚ → ℚ → ℚ → ℚ) :
    ∀ (keys : List SplineKey) (t : ℚ), (∀ k ∈ keys, k.t ≤ t) →
      splineSample interp keys t = none := by
  intro keys
  induction keys with
  | nil => intro t _; rfl
  | cons k0 rest ih =>
      intro t h
      cases rest with
      | nil => rfl
      | cons k1 rest2 =>
          have h0 := h k0 (by simp)
          have h1 := h k1 (by simp)
          rw [splineSample, if_neg (not_lt.mpr h0), if_neg (not_lt.mpr h1)]
          exact ih t fun k hk => h k (List.mem_cons_of_mem k0 hk)

theorem sorted_head_le (k1 : SplineKey) (rest2 : List SplineKey)
    (hs : List.Pairwise (fun a b => a.t < b.t) (k1 :: rest2))
    (j : ℕ) (hj : j < (k1 :: rest2).length) :
    k1.t ≤ ((k1 :: rest2).get ⟨j, hj⟩).t := by
  cases j with
  | zero => exact le_refl _
  | succ j2 =>
      have hmem : (k1 :: rest2).get ⟨j2 + 1, hj⟩ ∈ rest2 := by
        rw [List.get_cons_succ]
        exact List.get_mem rest2 j2 _

      exact le_of_lt ((List.pairwise_cons.mp hs).1 _ hmem)

theorem splineSample_at_inner_key (interp : ℚ → ℚ → ℚ → ℚ)
    (hinterp : ∀ a b : ℚ, interp 0 a b = a) :
    ∀ (keys : List SplineKey),
      List.Pairwise (fun a b => a.t < b.t) keys →
      ∀ (i : ℕ) (hi : i + 1 < keys.length),
        splineSample interp keys
            ((keys.get ⟨i, by omega⟩).t) =
          some ((keys.get ⟨i, by omega⟩).value) := by
  intro keys
  induction keys with
  | nil => intro _ i hi; simp at hi
  | cons k0 rest ih =>
      intro hs i hi
      cases rest with
      | nil => simp at hi
      | cons k1 rest2 =>
          have h01 : k0.t < k1.t := (List.pairwise_cons.mp hs).1 k1 (by simp)
          cases i with
          | zero =>
              show splineSample interp (k0 :: k1 :: rest2) k0.t = some k0.value
              rw [splineSample, if_neg (lt_irrefl k0.t), if_pos h01]
              rw [sub_self, zero_div, hinterp]
          | succ j =>
              have hj : j + 1 < (k1 :: rest2).length := by
                simpa using hi
              have hget : ((k0 :: k1 :: rest2).get ⟨j + 1, by omega⟩) =
                  ((k1 :: rest2).get ⟨j, by omega⟩) := by
                rw [List.get_cons_succ]
              rw [hget]
              have hk1le : k1.t ≤ ((k1 :: rest2).get ⟨j, by omega⟩).t :=
                sorted_head_le k1 rest2 (List.pairwise_cons.mp hs).2 j (by omega)
              have hk0lt : k0.t ≤ ((k1 :: rest2).get ⟨j, by omega⟩).t :=
                le_trans (le_of_lt h01) hk1le
              rw [splineSample, if_neg (not_lt.mpr hk0lt),
                if_neg (not_lt.mpr hk1le)]
              exact ih (List.pairwise_cons.mp hs).2 j hj

theorem clampedSample_of_sample_some (interp : ℚ → ℚ → ℚ → ℚ)
    (keys : List SplineKey) (t v : ℚ) (hne : keys ≠ [])
    (h : splineSample interp keys t = some v) :
    clampedSample interp keys t = some v := by
  unfold clampedSample
  rw [isEmpty_false_of_ne_nil hne, if_neg (by simp), h]

theorem splineSample_none_of_lt_head (interp : ℚ → ℚ → ℚ → ℚ)
    (k0 k1 : SplineKey) (rest : List SplineKey) (t : ℚ) (h : t < k0.t) :
    splineSample interp (k0 :: k1 :: rest) t = none := by
  rw [splineSample, if_pos h]

theorem mkProfile_head (a : ℚ) (rest : List ℚ) :
    (mkProfile (a :: rest)).head? = some ⟨0, a⟩ := by
  simp [mkProfile, List.enum_cons]

theorem mkProfile_getLast (scale : List ℚ) (hlen : 2 ≤ scale.length) :
    (mkProfile scale).getLast? =
      some ⟨1, scale.getD (scale.length - 1) 0⟩ := by
  have hlt : scale.length - 1 < scale.length := by omega
  have hcast : ((scale.length - 1 : ℕ) : ℚ) ≠ 0 :=
    Nat.cast_ne_zero.mpr (by omega)
  rw [List.getLast?_eq_getElem?, mkProfile_length]
  simp only [mkProfile, List.getElem?_map, List.getElem?_enum,
    List.getElem?_eq_getElem hlt]
  simp [div_self hcast, List.getD_eq_getElem scale 0 hlt,
    List.getElem?_eq_getElem hlt]

theorem mkProfile_ne_nil (scale : List ℚ) (hlen : 2 ≤ scale.length) :
    mkProfile scale ≠ [] := by
  intro h
  have := mkProfile_length scale
  rw [h] at this
  simp at this
  omega

theorem mkProfile_shape (scale : List ℚ) (hlen : 2 ≤ scale.length) :
    ∃ k0 k1 rest2, mkProfile scale = k0 :: k1 :: rest2 := by
  cases hm : mkProfile scale with
  | nil =>
      have := mkProfile_length scale
      rw [hm] at this
      simp at this
      omega
  | cons k0 tail =>
      cases tail with
      | nil =>
          have := mkProfile_length scale
          rw [hm] at this
          simp at this
          omega
      | cons k1 rest2 => exact ⟨k0, k1, rest2, rfl⟩

theorem clampedSample_at_cp (interp : ℚ → ℚ → ℚ → ℚ)
    (hinterp : ∀ a b : ℚ, interp 0 a b = a)
    (scale : List ℚ) (hlen : 2 ≤ scale.length) (i : ℕ)
    (hi : i < scale.length) :
    clampedSample interp (mkProfile scale)
        ((i : ℚ) / ((scale.length - 1 : ℕ) : ℚ)) =
      some (scale.getD i 0) := by
  have hne := mkProfile_ne_nil scale hlen
  have hcast : ((scale.length - 1 : ℕ) : ℚ) ≠ 0 :=
    Nat.cast_ne_zero.mpr (by omega)
  by_cases hlast : i = scale.length - 1
  · subst hlast
    rw [div_self hcast]
    have hnone := splineSample_none_of_ge interp (mkProfile scale) 1
      (mkProfile_time_le_one scale hlen)
    unfold clampedSample
    rw [isEmpty_false_of_ne_nil hne, if_neg (by simp), hnone]
    obtain ⟨a, rest, rfl⟩ : ∃ a rest, scale = a :: rest := by
      cases scale with
      | nil => simp at hlen
      | cons a rest => exact ⟨a, rest, rfl⟩
    rw [mkProfile_head, mkProfile_getLast _ hlen]
    norm_num
  · have h2 : i + 1 < (mkProfile scale).length := by
      rw [mkProfile_length]; omega
    have hkey := splineSample_at_inner_key interp hinterp (mkProfile scale)
      (mkProfile_sorted scale hlen) i h2
    rw [mkProfile_get scale i hi (by rw [mkProfile_length]; omega)] at hkey
    rw [clampedSample_of_sample_some interp _ _ _ hne hkey,
      List.getD_eq_getElem scale 0 hi, List.get_eq_getElem]

theorem clampedSample_below_profile (interp : ℚ → ℚ → ℚ → ℚ)
    (scale : List ℚ) (hlen : 2 ≤ scale.length) (r : ℚ) (hr : r < 0) :
    clampedSample interp (mkProfile scale) r = some (scale.getD 0 0) := by
  have hne := mkProfile_ne_nil scale hlen
  obtain ⟨a, rest, rfl⟩ : ∃ a rest, scale = a :: rest := by
    cases scale with
    | nil => simp at hlen
    | cons a rest => exact ⟨a, rest, rfl⟩
  obtain ⟨k0, k1, rest2, hsh⟩ := mkProfile_shape (a :: rest) hlen
  have hk0 : k0 = ⟨0, a⟩ := by
    have hh := mkProfile_head a rest
    rw [hsh] at hh
    simpa using hh
  have hnone : splineSample interp (mkProfile (a :: rest)) r = none := by
    rw [hsh]
    exact splineSample_none_of_lt_head interp k0 k1 rest2 r (by rw [hk0]; exact hr)
  unfold clampedSample
  rw [isEmpty_false_of_ne_nil hne, if_neg (by simp), hnone, mkProfile_head,
    mkProfile_getLast _ hlen]
  have : r ≤ 0 := le_of_lt hr
  norm_num [this]

theorem clampedSample_above_profile (interp : ℚ → ℚ → ℚ → ℚ)
    (scale : List ℚ) (hlen : 2 ≤ scale.length) (r : ℚ) (hr : 1 < r) :
    clampedSample interp (mkProfile scale) r =
      some (scale.getD (scale.length - 1) 0) := by
  have hne := mkProfile_ne_nil scale hlen
  obtain ⟨a, rest, rfl⟩ : ∃ a rest, scale = a :: rest := by
    cases scale with
    | nil => simp at hlen
    | cons a rest => exact ⟨a, rest, rfl⟩
  have hnone : splineSample interp (mkProfile (a :: rest)) r = none :=
    splineSample_none_of_ge interp _ r fun k hk =>
      le_trans (mkProfile_time_le_one _ hlen k hk) (le_of_lt hr)
  unfold clampedSample
  rw [isEmpty_false_of_ne_nil hne, if_neg (by simp), hnone, mkProfile_head,
    mkProfile_getLast _ hlen]
  have h0 : ¬ r ≤ 0 := by linarith
  have h1 : (1 : ℚ) ≤ r := le_of_lt hr
  norm_num [h0, h1]

/-- C8: for the radial profile the code builds from `self.scale` (control
point `i` at radius `i / (len - 1)`), the clamped spline sample at any radius
`r0 < 0` is the first control point's value — the same value sampling at
radius 0 yields — and at any radius `r1 > 1` it is the last control point's
value — the same value sampling at radius 1 yields — never an extrapolated
value; and sampling exactly at control point `i`'s radius returns exactly
that control point's value.  `interp` is the crate's two-point cosine kernel,
constrained by its defining property at the left endpoint
(`interp 0 a b = a`, exact since `cos 0 = 1`). -/
theorem radial_profile_clamped_sample (interp : ℚ → ℚ → ℚ → ℚ)
    (hinterp : ∀ a b : ℚ, interp 0 a b = a)
    (scale : List ℚ) (hlen : 2 ≤ scale.length)
    (r0 r1 : ℚ) (hr0 : r0 < 0) (hr1 : 1 < r1)
    (i : ℕ) (hi : i < scale.length) :
    clampedSample interp (mkProfile scale) r0 = some (scale.getD 0 0) ∧
    clampedSample interp (mkProfile scale) 0 = some (scale.getD 0 0) ∧
    clampedSample interp (mkProfile scale) r1 =
      some (scale.getD (scale.length - 1) 0) ∧
    clampedSample interp (mkProfile scale) 1 =
      some (scale.getD (scale.length - 1) 0) ∧
    clampedSample interp (mkProfile scale)
        ((i : ℚ) / ((scale.length - 1 : ℕ) : ℚ)) =
      some (scale.getD i 0) := by
  have hcast : ((scale.length - 1 : ℕ) : ℚ) ≠ 0 :=
    Nat.cast_ne_zero.mpr (by omega)
  refine ⟨clampedSample_below_profile interp scale hlen r0 hr0, ?_,
    clampedSample_above_profile interp scale hlen r1 hr1, ?_,
    clampedSample_at_cp interp hinterp scale hlen i hi⟩
  · have h := clampedSample_at_cp interp hinterp scale hlen 0 (by omega)
    rwa [Nat.cast_zero, zero_div] at h
  · have h := clampedSample_at_cp interp hinterp scale hlen
      (scale.length - 1) (by omega)
    rwa [div_self hcast] at h

/-- Witness for `radial_profile_clamped_sample`: the spec's concrete
scenario — control points `[(0,0), (0.5,0.3), (1,0)]` — with a kernel whose
left-endpoint weight is 0: sampling at radius 0.5 returns exactly 0.3, at 0
returns 0, and at the out-of-range radii -1 and 1.5 returns the boundary
values 0 (the same values as sampling at 0 and 1). -/
theorem radial_profile_clamped_sample_witness :
    clampedSample (fun nt a b => a + (b - a) * nt)
        (mkProfile [0, 3/10, 0]) (-1) = some 0 ∧
    clampedSample (fun nt a b => a + (b - a) * nt)
        (mkProfile [0, 3/10, 0]) 0 = some 0 ∧
    clampedSample (fun nt a b => a + (b - a) * nt)
        (mkProfile [0, 3/10, 0]) (3/2) = some 0 ∧
    clampedSample (fun nt a b => a + (b - a) * nt)
        (mkProfile [0, 3/10, 0]) 1 = some 0 ∧
    clampedSample (fun nt a b => a + (b - a) * nt)
        (mkProfile [0, 3/10, 0])
        (((1 : ℕ) : ℚ) / ((([(0 : ℚ), 3/10, 0].length - 1 : ℕ)) : ℚ)) =
      some (3/10) :=
  radial_profile_clamped_sample (fun nt a b => a + (b - a) * nt)
    (fun a b => by ring) [0, 3/10, 0] (by decide) (-1) (3/2)
    (by norm_num) (by norm_num) 1 (by decide)

/-! ### `MainData::detect_cameras` (main.rs lines 276-292)

`opens j` is whether `OpenCvCamera::new(j)` succeeds for device index `j`
(external); `cam j` is the handle state `new(j)` yields on success.  A probe
success resets the consecutive-failure counter to 0, closes the handle and
sends it to the worker as `ValidCamera`; a failure increments the counter,
and the scan breaks exactly when the counter reaches 5. -/

/-- The `for i in 0..` scan of `detect_cameras`, with explicit fuel: `i` is
the next index to probe, `fails` the consecutive-failure counter, `acc` the
`ValidCamera(i, c)` registrations sent so far, in order.  `none` means the
fuel ran out before the scan broke. -/
def detectLoop (opens : Nat → Bool) (cam : Nat → Camera) :
    Nat → Nat → Nat → List (Nat × Camera) → Option (List (Nat × Camera))
  | 0, _, _, _ => none
  | fuel + 1, i, fails, acc =>
    if opens i then
      detectLoop opens cam fuel (i + 1) 0
        (acc ++ [(i, { cam i with opened := false })])
    else if fails + 1 = 5 then some acc
    else detectLoop opens cam fuel (i + 1) (fails + 1) acc

/-- `MainData::detect_cameras`: the scan started at index 0 with counter 0. -/
def detect_cameras (opens : Nat → Bool) (cam : Nat → Camera) (fuel : Nat) :
    Option (List (Nat × Camera)) :=
  detectLoop opens cam fuel 0 0 []

theorem detectLoop_all_fail (opens : Nat → Bool) (cam : Nat → Camera) :
    ∀ (fuel i fails : Nat) (acc : List (Nat × Camera)),
      (∀ j, i ≤ j → opens j = false) → fails < 5 → 5 - fails ≤ fuel →
      detectLoop opens cam fuel i fails acc = some acc := by
  intro fuel
  induction fuel with
  | zero => intro i fails acc _ hf hle; omega
  | succ fuel ih =>
      intro i fails acc h hf hle
      have hoi : opens i = false := h i (le_refl i)
      by_cases h5 : fails + 1 = 5
      · simp [detectLoop, hoi, h5]
      · simp only [detectLoop, hoi, Bool.false_eq_true, if_false, h5]
        exact ih (i + 1) (fails + 1) acc (fun j hj => h j (by omega))
          (by omega) (by omega)

theorem detectLoop_reaches (opens : Nat → Bool) (cam : Nat → Camera)
    (M : Nat) (hM : ∀ j, M ≤ j → opens j = false) :
    ∀ (fuel i fails : Nat), fails < 5 → (M - i) + 5 ≤ fuel →
      ∃ N, detectLoop opens cam fuel i fails
          (((List.range i).filter fun j => opens j).map
            fun j => (j, { cam j with opened := false })) =
        some (((List.range N).filter fun j => opens j).map
          fun j => (j, { cam j with opened := false })) := by
  intro fuel
  induction fuel with
  | zero => intro i fails _ hle; omega
  | succ fuel ih =>
      intro i fails hf hle
      by_cases hoi : opens i = true
      · have hiM : i < M := by
          by_contra h2
          rw [hM i (by omega)] at hoi
          exact Bool.false_ne_true hoi
        have hacc : (((List.range i).filter fun j => opens j).map
              fun j => (j, { cam j with opened := false })) ++
              [(i, { cam i with opened := false })] =
            (((List.range (i + 1)).filter fun j => opens j).map
              fun j => (j, { cam j with opened := false })) := by
          rw [List.range_succ, List.filter_append, List.map_append]
          simp [hoi]
        simp only [detectLoop, hoi, if_true]
        rw [hacc]
        exact ih (i + 1) 0 (by omega) (by omega)
      · have hoi2 : opens i = false := by
          cases h2 : opens i
          · rfl
          · exact absurd h2 hoi
        have hacc : (((List.range (i + 1)).filter fun j => opens j).map
              fun j => (j, { cam j with opened := false })) =
            (((List.range i).filter fun j => opens j).map
              fun j => (j, { cam j with opened := false })) := by
          rw [List.range_succ, List.filter_append]
          simp [hoi2]
        by_cases h5 : fails + 1 = 5
        · refine ⟨i, ?_⟩
          simp [detectLoop, hoi2, h5]
        · by_cases hiM : M ≤ i
          · refine ⟨i, ?_⟩
            exact detectLoop_all_fail opens cam (fuel + 1) i fails _
              (fun j hj => hM j (by omega)) hf (by omega)
          · simp only [detectLoop, hoi2, Bool.false_eq_true, if_false, h5]
            obtain ⟨N, hN⟩ := ih (i + 1) (fails + 1) (by omega) (by omega)
            rw [hacc] at hN
            exact ⟨N, hN⟩

/-- C10: the startup camera scan probes indices 0, 1, 2, … and terminates
exactly when 5 consecutive indices fail to open: a successful probe resets
the failure counter to 0, closes the freshly opened handle and registers it
with the worker; a failed probe increments the counter, breaking the loop the
moment it reaches 5.  Hence for every device configuration in which every
index from some `M` on fails to open (at most finitely many open), the scan
terminates within `M + 5` probes, and the registrations sent are exactly the
opening indices among those probed, in order, each with its handle closed. -/
theorem detect_cameras_spec (opens : Nat → Bool) (cam : Nat → Camera)
    (M : Nat) (hM : ∀ j, M ≤ j → opens j = false) :
    (∃ N, detect_cameras opens cam (M + 5) =
      some (((List.range N).filter fun j => opens j).map
        fun j => (j, { cam j with opened := false }))) ∧
    (∀ (fuel i fails : Nat) (acc : List (Nat × Camera)), opens i = true →
      detectLoop opens cam (fuel + 1) i fails acc =
        detectLoop opens cam fuel (i + 1) 0
          (acc ++ [(i, { cam i with opened := false })])) ∧
    (∀ (fuel i fails : Nat) (acc : List (Nat × Camera)), opens i = false →
      fails + 1 ≠ 5 →
      detectLoop opens cam (fuel + 1) i fails acc =
        detectLoop opens cam fuel (i + 1) (fails + 1) acc) ∧
    (∀ (fuel i fails : Nat) (acc : List (Nat × Camera)), opens i = false →
      fails + 1 = 5 →
      detectLoop opens cam (fuel + 1) i fails acc = some acc) := by
  refine ⟨?_, ?_, ?_, ?_⟩
  · exact detectLoop_reaches opens cam M hM (M + 5) 0 0 (by omega) (by omega)
  · intro fuel i fails acc h
    simp [detectLoop, h]
  · intro fuel i fails acc h h5
    simp [detectLoop, h, h5]
  · intro fuel i fails acc h h5
    simp [detectLoop, h, h5]

/-- Witness for `detect_cameras_spec`: with no device opening at all the scan
stops after probing indices 0–4 and registers nothing; and on a configuration
where index 0 opens, a success at counter value 4 resets the counter to 0 and
registers the closed handle. -/
theorem detect_cameras_spec_witness :
    detect_cameras (fun _ => false) (fun _ => ⟨false, false, []⟩) 5 =
      some [] ∧
    detectLoop (fun j => decide (j = 0)) (fun _ => ⟨true, true, []⟩) 3 0 4 [] =
      detectLoop (fun j => decide (j = 0)) (fun _ => ⟨true, true, []⟩) 2 1 0
        [(0, ⟨false, true, []⟩)] := by
  constructor
  · obtain ⟨N, hN⟩ := (detect_cameras_spec (fun _ => false)
      (fun _ => ⟨false, false, []⟩) 0 (fun j hj => rfl)).1
    rw [hN]
    simp
  · exact (detect_cameras_spec (fun j => decide (j = 0))
      (fun _ => ⟨true, true, []⟩) 1
      (fun j hj => by simp only [decide_eq_false_iff_not]; omega)).2.1
      2 0 4 [] (by decide)

end ImageProc
